import Mathlib

/-!
Shallow embedding of the revision/commit subsystem of the `git-shell`
library.  Go byte strings are modelled as `List Char`; Go's
`(value, error)` return pairs are modelled as `Option value × Option error`
(`nil` on either side becomes `none`); the external tool invocation
capability is an abstract `GitEnv`.  Functions present under `src/`
(`parsePrettyFormatLogToList`, `LsRemote`, `RepoRemoveRemote`,
`RepoRemoteURLSetFirst`, `RepoRemoteURLSetRegex`) are translated from the
source; functions whose source file is absent from `src/` are modelled from
the spec and say so in their doc comments.
-/

namespace GitShell

/-- Characters of a string literal, used to write Go byte strings. -/
def cs (s : String) : List Char := s.data

/-- Models Go `bytes.Split(s, sep)` for a one-character separator: the
subslices between instances of `sep`; an empty input yields one empty
subslice, a trailing separator yields a trailing empty subslice. -/
def splitOnChar (sep : Char) : List Char → List (List Char)
  | [] => [[]]
  | c :: rest =>
    let r := splitOnChar sep rest
    if c = sep then [] :: r
    else
      match r with
      | [] => [[c]]
      | h :: t => (c :: h) :: t

/-- Generalization of `splitOnChar` to a predicate, used to model
whitespace splitting. -/
def splitOnP (p : Char → Bool) : List Char → List (List Char)
  | [] => [[]]
  | c :: rest =>
    let r := splitOnP p rest
    if p c then [] :: r
    else
      match r with
      | [] => [[c]]
      | h :: t => (c :: h) :: t

/-- Go `unicode.IsSpace` restricted to the ASCII range (the range relevant
for the external tool's output): space, tab, newline, vertical tab, form
feed, carriage return. -/
def isGoSpace (c : Char) : Bool :=
  c = ' ' || c = '\t' || c = '\n' || c = Char.ofNat 11 || c = Char.ofNat 12 || c = '\r'

/-- Models Go `bytes.Fields`: the maximal runs of non-whitespace
characters, in order (equivalently: split at each whitespace character and
drop the empty pieces). -/
def fields (s : List Char) : List (List Char) :=
  (splitOnP isGoSpace s).filter (fun w => !w.isEmpty)

/-- Models Go `strings.Contains(hay, needle)`: `needle` occurs as a
contiguous subsequence of `hay`. -/
def containsSub : List Char → List Char → Bool
  | [], needle => needle.isEmpty
  | c :: rest, needle => needle.isPrefixOf (c :: rest) || containsSub rest needle

/-- Models Go `strings.TrimSpace` (ASCII whitespace). -/
def trimSpace (s : List Char) : List Char :=
  ((s.dropWhile isGoSpace).reverse.dropWhile isGoSpace).reverse

/-- Decimal digit rendering of a natural number. -/
def natToText (n : Nat) : List Char := Nat.toDigits 10 n

/-- Decimal rendering of an integer. -/
def intToText : Int → List Char
  | .ofNat n => natToText n
  | .negSucc n => '-' :: natToText (n + 1)

/-- Models Go `strconv.ParseInt(s, 10, 64)` restricted to the non-negative
numbers the count output can produce: all-digit non-empty text parses,
anything else fails. -/
def parseCount (s : List Char) : Option Nat :=
  let t := trimSpace s
  if !t.isEmpty && t.all Char.isDigit then
    some (t.foldl (fun a c => a * 10 + (c.toNat - 48)) 0)
  else
    none

/-- The typed error vocabulary of the library (spec section 7 plus the
sentinel errors of `src/repo_remote.go`).  `exec` wraps a raw,
unclassified external-execution error text, modelling a raw Go `error`
propagated unchanged. -/
inductive Err where
  | invalidFormat
  | revisionNotExist
  | malformedOutput
  | validation (msg : List Char)
  | remoteNotExist
  | urlNotExist
  | delAllNonPushURL
  | exec (text : List Char)
deriving DecidableEq, Repr

/-- Is `c` a hexadecimal digit (either case)? -/
def isHexDigit (c : Char) : Bool :=
  ('0' ≤ c && c ≤ '9') || ('a' ≤ c && c ≤ 'f') || ('A' ≤ c && c ≤ 'F')

/-- Case-fold a text to lowercase. -/
def lowercase (s : List Char) : List Char := s.map Char.toLower

/-- Modelled from the spec: the `Identity` type (its source file is not
under `src/`).  A commit identity, represented by its canonical rendering:
exactly 40 lowercase hex characters; two identities are equal iff their
renderings are equal (hex encoding of the 20 hash bytes is injective). -/
structure Identity where
  hex : List Char
deriving DecidableEq, Repr

/-- Modelled from the spec: `toString` of an Identity renders it as its
40-lowercase-hex-character text. -/
def Identity.toString (x : Identity) : List Char := x.hex

/-- Modelled from the spec: `parse(text)` succeeds iff the text is exactly
40 hex characters, case-folding to lowercase; otherwise it fails with
`InvalidFormat`. -/
def parseIdentity (s : List Char) : Except Err Identity :=
  if s.length == 40 && s.all isHexDigit then .ok ⟨lowercase s⟩
  else .error .invalidFormat

/-- A commit: identity, parent identities, author/committer timestamps and
message (spec section 3).  Only the identity matters to the claims. -/
structure Commit where
  id : Identity
  parents : List Identity
  authorTime : Int
  committerTime : Int
  message : List Char
deriving DecidableEq, Repr

/-- A remote reference: pair of identity text and refspec name
(`src/repo_remote.go`). -/
structure Reference where
  id : List Char
  refspec : List Char
deriving DecidableEq, Repr

/-- One external-tool invocation: argument vector, working directory,
timeout. -/
structure Invocation where
  args : List (List Char)
  dir : List Char
  timeout : Int
deriving DecidableEq, Repr

/-- The abstract external-execution capability (spec section 6):
an invocation yields either the raw stdout bytes or an error text. -/
structure GitEnv where
  run : Invocation → Except (List Char) (List Char)

/-- An environment whose every invocation fails with error text `t`. -/
def constErrEnv (t : List Char) : GitEnv := ⟨fun _ => .error t⟩

/-- An environment whose every invocation succeeds with stdout `out`. -/
def constOkEnv (out : List Char) : GitEnv := ⟨fun _ => .ok out⟩

/-- The loop body of `parsePrettyFormatLogToList` (`src/repo.go`): for
each split part, look the commit up; on the first failure return
`(nil, err)`; otherwise push onto the accumulated list. -/
def parsePrettyLoop (gc : List Char → Except Err Commit) :
    List (List Char) → List Commit → Option (List Commit) × Option Err
  | [], acc => (some acc.reverse, none)
  | p :: ps, acc =>
    match gc p with
    | .error e => (none, some e)
    | .ok c => parsePrettyLoop gc ps (c :: acc)

/-- `parsePrettyFormatLogToList` from `src/repo.go`: empty input yields an
empty list and no error; otherwise the input is split on newlines and
every part is passed to the repository's commit lookup (`repo.GetCommit`,
abstracted as the `gc` parameter), short-circuiting to `(nil, err)` on the
first lookup failure. -/
def parsePrettyFormatLogToList (gc : List Char → Except Err Commit)
    (logs : List Char) : Option (List Commit) × Option Err :=
  if logs.isEmpty then (some [], none)
  else parsePrettyLoop gc (splitOnChar '\n' logs) []

/-- Spec-side formulation used to state the corrected identity-list
parsing claim: look up every part in order, failing on the first error. -/
def mapAllOrErr (gc : List Char → Except Err Commit) :
    List (List Char) → Except Err (List Commit)
  | [] => .ok []
  | p :: ps =>
    match gc p with
    | .error e => .error e
    | .ok c =>
      match mapAllOrErr gc ps with
      | .error e => .error e
      | .ok l => .ok (c :: l)

/-- Options of `LsRemote` (`src/repo_remote.go`); the Go trailing-variadic
options value is modelled as one options argument with these defaults. -/
structure LsRemoteOptions where
  heads : Bool := false
  tags : Bool := false
  refs : Bool := false
  patterns : List (List Char) := []
  timeout : Int := 0

/-- The argument vector built by `LsRemote` (`src/repo_remote.go`). -/
def lsRemoteArgs (url : List Char) (opt : LsRemoteOptions) : List (List Char) :=
  [cs "ls-remote", cs "--quiet"]
    ++ (if opt.heads then [cs "--heads"] else [])
    ++ (if opt.tags then [cs "--tags"] else [])
    ++ (if opt.refs then [cs "--refs"] else [])
    ++ [url]
    ++ (if opt.patterns.length > 0 then opt.patterns else [])

/-- The output loop of `LsRemote` (`src/repo_remote.go`): for each line,
split into whitespace-separated fields; skip lines with fewer than two
fields; otherwise append a `Reference` of the first two fields. -/
def lsRemoteLoop : List (List Char) → List Reference → List Reference
  | [], acc => acc.reverse
  | l :: ls, acc =>
    match fields l with
    | f0 :: f1 :: _ => lsRemoteLoop ls (⟨f0, f1⟩ :: acc)
    | _ => lsRemoteLoop ls acc

/-- `LsRemote` from `src/repo_remote.go`: build the `ls-remote` argument
vector, run it; on failure return `(nil, err)`; on success split stdout on
newlines and collect one `Reference` per line with at least two fields. -/
def lsRemote (env : GitEnv) (url : List Char) (opt : LsRemoteOptions) :
    Option (List Reference) × Option Err :=
  match env.run ⟨lsRemoteArgs url opt, [], opt.timeout⟩ with
  | .error t => (none, some (.exec t))
  | .ok stdout => (some (lsRemoteLoop (splitOnChar '\n' stdout) []), none)

/-- Spec-side formulation used to state the `LsRemote` parsing claim: a
line maps to a `Reference` of its first two whitespace-separated fields,
or to nothing when it has fewer than two fields. -/
def refOfLine (l : List Char) : Option Reference :=
  match fields l with
  | f0 :: f1 :: _ => some ⟨f0, f1⟩
  | _ => none

/-- Options of `RepoRemoveRemote` (`src/repo_remote.go`). -/
structure RemoveRemoteOptions where
  timeout : Int := 0

/-- Options of the remote set-url operations (`src/repo_remote.go`). -/
structure RemoteURLSetOptions where
  push : Bool := false
  timeout : Int := 0

/-- `RepoRemoveRemote` from `src/repo_remote.go`: run
`remote remove name`; on failure, convert to `ErrRemoteNotExist` exactly
when the error text contains `"error: No such remote"` or
`"fatal: No such remote"`, and propagate the raw error otherwise. -/
def repoRemoveRemote (env : GitEnv) (repoPath name : List Char)
    (opt : RemoveRemoteOptions) : Option Err :=
  match env.run ⟨[cs "remote", cs "remove", name], repoPath, opt.timeout⟩ with
  | .ok _ => none
  | .error t =>
    if containsSub t (cs "error: No such remote")
        || containsSub t (cs "fatal: No such remote") then
      some .remoteNotExist
    else
      some (.exec t)

/-- `RepoRemoteURLSetFirst` from `src/repo_remote.go`: run
`remote set-url [--push] name newurl`; on failure, convert to
`ErrRemoteNotExist` exactly when the error text contains
`"No such remote"`, and propagate the raw error otherwise. -/
def repoRemoteURLSetFirst (env : GitEnv) (repoPath name newurl : List Char)
    (opt : RemoteURLSetOptions) : Option Err :=
  match env.run ⟨[cs "remote", cs "set-url"]
      ++ (if opt.push then [cs "--push"] else []) ++ [name, newurl],
      repoPath, opt.timeout⟩ with
  | .ok _ => none
  | .error t =>
    if containsSub t (cs "No such remote") then some .remoteNotExist
    else some (.exec t)

/-- `RepoRemoteURLSetRegex` from `src/repo_remote.go`: run
`remote set-url [--push] name newurl urlregex`; on failure, convert to
`ErrURLNotExist` when the error text contains `"No such URL found"`, else
to `ErrRemoteNotExist` when it contains `"No such remote"`, and propagate
the raw error otherwise. -/
def repoRemoteURLSetRegex (env : GitEnv)
    (repoPath name urlregex newurl : List Char)
    (opt : RemoteURLSetOptions) : Option Err :=
  match env.run ⟨[cs "remote", cs "set-url"]
      ++ (if opt.push then [cs "--push"] else []) ++ [name, newurl, urlregex],
      repoPath, opt.timeout⟩ with
  | .ok _ => none
  | .error t =>
    if containsSub t (cs "No such URL found") then some .urlNotExist
    else if containsSub t (cs "No such remote") then some .remoteNotExist
    else some (.exec t)

/-- Modelled from the spec: `escapePath` (its source file is not under
`src/`; only its test is).  A path beginning with a colon is escaped with
one leading backslash before being placed on a command line; all other
inputs pass through unescaped. -/
def escapePath (p : List Char) : List Char :=
  if [':'].isPrefixOf p then '\\' :: p else p

/-- The `-- path` suffix appended to an argument vector when a path filter
is set, with the path escaped. -/
def pathArgs (p : List Char) : List (List Char) :=
  if p.isEmpty then [] else [cs "--", escapePath p]

/-- Modelled from the spec: the repository contents as seen through the
external tool, for the operations whose source file is not under `src/`:
the set of commits the tool can resolve and fetch. -/
structure RepoModel where
  commits : List Commit

/-- Modelled from the spec: the external tool's revision resolution for
(possibly abbreviated) hash expressions (spec sections 3 and 4.4): a short
identity is a prefix that resolves to exactly one full identity, and fails
when matching none or more than one. -/
def resolveRevision (m : RepoModel) (rev : List Char) : Option Identity :=
  match m.commits.filter (fun c => rev.isPrefixOf c.id.hex) with
  | [c] => some c.id
  | _ => none

/-- Modelled from the spec: the cache-lookup-or-parse commit fetch
(spec section 4.3) over the repository model: fetch the commit with the
given identity, failing when it does not exist. -/
def repoGetCommit (m : RepoModel) (id : Identity) : Except Err Commit :=
  match m.commits.find? (fun c => c.id == id) with
  | some c => .ok c
  | none => .error .revisionNotExist

/-- Modelled from the spec: `CommitByRevision` (its source file is not
under `src/`; only its test is).  Resolve the revision expression; a
resolution failure is classified as `RevisionNotExist` with no commit;
otherwise fetch the commit by the resolved identity. -/
def commitByRevision (m : RepoModel) (rev : List Char) :
    Option Commit × Option Err :=
  match resolveRevision m rev with
  | none => (none, some .revisionNotExist)
  | some id =>
    match repoGetCommit m id with
    | .error e => (none, some e)
    | .ok c => (some c, none)

/-- Modelled from the spec: the options of `Log` (its source file is not
under `src/`): inclusive lower time bound, path filter, pagination. -/
structure LogOptions where
  since : Option Int := none
  path : List Char := []
  skip : Nat := 0
  limit : Nat := 0
  timeout : Int := 0

/-- Modelled from the spec: the argument vector built by `Log`. -/
def logArgs (rev : List Char) (opt : LogOptions) : List (List Char) :=
  [cs "log", cs "--pretty=format:%H", rev]
    ++ (match opt.since with
        | some t => [cs "--since=" ++ intToText t]
        | none => [])
    ++ (if opt.skip > 0 then [cs "--skip=" ++ natToText opt.skip] else [])
    ++ (if opt.limit > 0 then [cs "--max-count=" ++ natToText opt.limit] else [])
    ++ pathArgs opt.path

/-- Modelled from the spec: `Log` (its source file is not under `src/`;
only its test is).  Build the hash-only pretty-format log invocation, run
it, and parse the identity-list output via the commit lookup `gc`. -/
def log (env : GitEnv) (gc : List Char → Except Err Commit)
    (repoPath rev : List Char) (opt : LogOptions) :
    Option (List Commit) × Option Err :=
  match env.run ⟨logArgs rev opt, repoPath, opt.timeout⟩ with
  | .error t => (none, some (.exec t))
  | .ok out => parsePrettyFormatLogToList gc out

/-- Modelled from the spec: the options of `CommitsSince` (path filter
only; the time bound is a positional argument). -/
structure CommitsSinceOptions where
  path : List Char := []
  timeout : Int := 0

/-- Modelled from the spec: the argument vector built by `CommitsSince`,
which fixes the time bound from its positional argument. -/
def commitsSinceArgs (rev : List Char) (since : Int)
    (opt : CommitsSinceOptions) : List (List Char) :=
  [cs "log", cs "--pretty=format:%H", rev, cs "--since=" ++ intToText since]
    ++ pathArgs opt.path

/-- Modelled from the spec: `CommitsSince` (its source file is not under
`src/`; only its test is).  The same hash-only log traversal as `Log`,
with the time bound supplied positionally. -/
def commitsSince (env : GitEnv) (gc : List Char → Except Err Commit)
    (repoPath rev : List Char) (since : Int) (opt : CommitsSinceOptions) :
    Option (List Commit) × Option Err :=
  match env.run ⟨commitsSinceArgs rev since opt, repoPath, opt.timeout⟩ with
  | .error t => (none, some (.exec t))
  | .ok out => parsePrettyFormatLogToList gc out

/-- Modelled from the spec: the options of `RevListCount`. -/
structure RevListCountOptions where
  path : List Char := []
  timeout : Int := 0

/-- Modelled from the spec: the options of `RevList`. -/
structure RevListOptions where
  path : List Char := []
  timeout : Int := 0

/-- Modelled from the spec: the argument vector built by `RevListCount`. -/
def revListCountArgs (refspecs : List (List Char))
    (opt : RevListCountOptions) : List (List Char) :=
  [cs "rev-list", cs "--count"] ++ refspecs ++ pathArgs opt.path

/-- Modelled from the spec: `RevListCount` (its source file is not under
`src/`; only its test is).  An empty refspec collection fails with the
validation error before any invocation is built or run; otherwise run
`rev-list --count` and parse the count.  The first component of the result
is the list of external invocations performed. -/
def revListCount (env : GitEnv) (repoPath : List Char)
    (refspecs : List (List Char)) (opt : RevListCountOptions) :
    List Invocation × (Nat × Option Err) :=
  if refspecs.isEmpty then
    ([], (0, some (.validation (cs "must have at least one refspec"))))
  else
    let inv : Invocation := ⟨revListCountArgs refspecs opt, repoPath, opt.timeout⟩
    match env.run inv with
    | .error t => ([inv], (0, some (.exec t)))
    | .ok out =>
      match parseCount out with
      | some n => ([inv], (n, none))
      | none => ([inv], (0, some .malformedOutput))

/-- Modelled from the spec: the argument vector built by `RevList`. -/
def revListArgs (refspecs : List (List Char)) (opt : RevListOptions) :
    List (List Char) :=
  [cs "rev-list"] ++ refspecs ++ pathArgs opt.path

/-- Modelled from the spec: `RevList` (its source file is not under
`src/`; only its test is).  The same empty-refspec validation as
`RevListCount`; otherwise run `rev-list` and parse the identity-list
output via the commit lookup `gc`.  The first component of the result is
the list of external invocations performed. -/
def revList (env : GitEnv) (gc : List Char → Except Err Commit)
    (repoPath : List Char) (refspecs : List (List Char))
    (opt : RevListOptions) :
    List Invocation × (Option (List Commit) × Option Err) :=
  if refspecs.isEmpty then
    ([], (none, some (.validation (cs "must have at least one refspec"))))
  else
    let inv : Invocation := ⟨revListArgs refspecs opt, repoPath, opt.timeout⟩
    match env.run inv with
    | .error t => ([inv], (none, some (.exec t)))
    | .ok out => ([inv], parsePrettyFormatLogToList gc out)

/-- Modelled from the spec: the options of `DiffNameOnly`. -/
structure DiffNameOnlyOptions where
  needsMergeBase : Bool := false
  path : List Char := []
  timeout : Int := 0

/-- Modelled from the spec: the argument vector built by `DiffNameOnly`:
a three-dot merge-base-relative diff when `needsMergeBase` is set,
otherwise a direct two-revision diff; the path filter is passed to the
external tool. -/
def diffNameOnlyArgs (base head : List Char) (opt : DiffNameOnlyOptions) :
    List (List Char) :=
  [cs "diff", cs "--name-only"]
    ++ (if opt.needsMergeBase then [base ++ cs "..." ++ head] else [base, head])
    ++ pathArgs opt.path

/-- Name-only output parsing (spec section 4.2): newline-separated
relative file paths, blank lines dropped, order preserved. -/
def nameOnlyParse (out : List Char) : List (List Char) :=
  (splitOnChar '\n' out).filter (fun l => !l.isEmpty)

/-- Modelled from the spec: `DiffNameOnly` (its source file is not under
`src/`; only its test is).  Build the name-only diff invocation, run it;
on failure return `(nil, err)`; on success parse the name-only output. -/
def diffNameOnly (env : GitEnv) (repoPath base head : List Char)
    (opt : DiffNameOnlyOptions) : Option (List (List Char)) × Option Err :=
  match env.run ⟨diffNameOnlyArgs base head opt, repoPath, opt.timeout⟩ with
  | .error t => (none, some (.exec t))
  | .ok out => (some (nameOnlyParse out), none)

/-- Is `p` equal to the filter path, or nested under it (i.e. the filter
followed by a path separator is a leading part of `p`)? -/
def underPath (filt p : List Char) : Bool :=
  p == filt || (filt ++ ['/']).isPrefixOf p

/-- A commit lookup that fails on the empty identity text (as the real
lookup does: the empty string is not a resolvable revision) and succeeds
on everything else; used to exercise the identity-list parser on a blank
trailing line. -/
def gcEmptyFails (s : List Char) : Except Err Commit :=
  if s.isEmpty then .error .revisionNotExist
  else .ok ⟨⟨s⟩, [], 0, 0, []⟩

/-- A one-commit repository model used to exercise `commitByRevision`. -/
def demoCommit : Commit :=
  ⟨⟨cs "4e59b72440188e7c2578299fc28ea425fbe9aece"⟩, [], 0, 0, []⟩

/-- A repository model holding exactly `demoCommit`. -/
def demoRepo : RepoModel := ⟨[demoCommit]⟩

/-! Helper lemmas shared by the claim theorems. -/

/-- The accumulator loop of the identity-list parser equals looking up all
parts in order and prepending the reversed accumulator. -/
theorem parsePrettyLoop_eq (gc : List Char → Except Err Commit) :
    ∀ (ps : List (List Char)) (acc : List Commit),
      parsePrettyLoop gc ps acc =
        match mapAllOrErr gc ps with
        | .ok l => (some (acc.reverse ++ l), none)
        | .error e => (none, some e) := by
  intro ps
  induction ps with
  | nil => intro acc; simp [parsePrettyLoop, mapAllOrErr]
  | cons p ps ih =>
    intro acc
    simp only [parsePrettyLoop, mapAllOrErr]
    cases gc p with
    | error e => rfl
    | ok c =>
      show parsePrettyLoop gc ps (c :: acc) = _
      rw [ih (c :: acc)]
      cases mapAllOrErr gc ps with
      | error e => rfl
      | ok l => simp

/-- The identity-list parser equals its order-preserving specification:
empty input yields an empty list without error; otherwise every
newline-split part is looked up, in order, short-circuiting on the first
failure. -/
theorem parsePretty_spec (gc : List Char → Except Err Commit)
    (logs : List Char) :
    parsePrettyFormatLogToList gc logs =
      if logs.isEmpty then (some [], none)
      else
        match mapAllOrErr gc (splitOnChar '\n' logs) with
        | .ok l => (some l, none)
        | .error e => (none, some e) := by
  by_cases h : logs.isEmpty
  · simp [parsePrettyFormatLogToList, h]
  · simp only [parsePrettyFormatLogToList, h, if_false, Bool.false_eq_true]
    rw [parsePrettyLoop_eq]
    cases mapAllOrErr gc (splitOnChar '\n' logs) with
    | error e => rfl
    | ok l => simp

/-- The output loop of `LsRemote` equals mapping `refOfLine` over the
lines, keeping the hits in order, prepending the reversed accumulator. -/
theorem lsRemoteLoop_eq :
    ∀ (ls : List (List Char)) (acc : List Reference),
      lsRemoteLoop ls acc = acc.reverse ++ ls.filterMap refOfLine := by
  intro ls
  induction ls with
  | nil => intro acc; simp [lsRemoteLoop]
  | cons l ls ih =>
    intro acc
    simp only [lsRemoteLoop, List.filterMap_cons, refOfLine]
    cases fields l with
    | nil => rw [ih]
    | cons f0 fs =>
      cases fs with
      | nil => rw [ih]
      | cons f1 rest =>
        show lsRemoteLoop ls (⟨f0, f1⟩ :: acc) = _
        rw [ih (⟨f0, f1⟩ :: acc)]
        simp

/-! Claim theorems. -/

/-- C2: for every environment and options, an empty refspec collection
makes both `RevListCount` and `RevList` fail with exactly the
`"must have at least one refspec"` validation error, returning the
zero/nil result, and neither performs any external invocation (the
performed-invocation trace is empty). -/
theorem revList_empty_refspecs_validation (env : GitEnv)
    (gc : List Char → Except Err Commit) (repoPath : List Char)
    (o1 : RevListCountOptions) (o2 : RevListOptions) :
    revListCount env repoPath [] o1 =
      ([], (0, some (.validation (cs "must have at least one refspec")))) ∧
    revList env gc repoPath [] o2 =
      ([], (none, some (.validation (cs "must have at least one refspec")))) :=
  ⟨rfl, rfl⟩

/-- C4: parsing a text of exactly 40 hex characters succeeds with the
identity rendering as the lowercase of the text, and `toString` of the
parsed identity is that lowercase text; parsing any other text fails with
`InvalidFormat`. -/
theorem parseIdentity_roundtrip (s : List Char) :
    ((s.length == 40 && s.all isHexDigit) = true →
      parseIdentity s = .ok ⟨lowercase s⟩ ∧
      Identity.toString ⟨lowercase s⟩ = lowercase s) ∧
    ((s.length == 40 && s.all isHexDigit) = false →
      parseIdentity s = .error .invalidFormat) := by
  constructor
  · intro h
    exact ⟨by simp [parseIdentity, h], rfl⟩
  · intro h
    simp [parseIdentity, h]

/-- Witness for C4: the mixed-case 40-hex text parses and renders
lowercase, and a non-40-hex text fails with `InvalidFormat`. -/
theorem parseIdentity_roundtrip_witness :
    (parseIdentity (cs "ABCDEF0123456789abcdef0123456789ABCDEF01") =
        .ok ⟨lowercase (cs "ABCDEF0123456789abcdef0123456789ABCDEF01")⟩ ∧
      Identity.toString ⟨lowercase (cs "ABCDEF0123456789abcdef0123456789ABCDEF01")⟩ =
        lowercase (cs "ABCDEF0123456789abcdef0123456789ABCDEF01")) ∧
    parseIdentity (cs "xyz") = .error .invalidFormat :=
  ⟨(parseIdentity_roundtrip (cs "ABCDEF0123456789abcdef0123456789ABCDEF01")).1
      (by decide),
    (parseIdentity_roundtrip (cs "xyz")).2 (by decide)⟩

/-- C5: `escapePath` maps the empty path to the empty path, leaves any
path that does not begin with a colon unchanged, and prepends exactly one
backslash to a path that begins with a colon, changing nothing else. -/
theorem escapePath_spec :
    escapePath [] = [] ∧
    (∀ (c : Char) (p : List Char), c ≠ ':' → escapePath (c :: p) = c :: p) ∧
    (∀ p : List Char, escapePath (':' :: p) = '\\' :: ':' :: p) := by
  refine ⟨rfl, ?_, ?_⟩
  · intro c p h
    simp [escapePath, List.isPrefixOf, Ne.symm h]
  · intro p
    simp [escapePath, List.isPrefixOf]

/-- Witness for C5: the three concrete cases of the source test. -/
theorem escapePath_spec_witness :
    escapePath [] = [] ∧
    escapePath (cs "normal") = cs "normal" ∧
    escapePath (cs ":normal") = cs "\\:normal" :=
  ⟨escapePath_spec.1,
    escapePath_spec.2.1 'n' (cs "ormal") (by decide),
    escapePath_spec.2.2 (cs "normal")⟩

/-- C6: `CommitsSince` produces, for every environment, commit lookup,
repository path, starting revision, time bound and options, exactly the
output of `Log` with the `Since` option fixed to that time bound (and the
same path filter): the two entry points build the same invocation and are
the same traversal. -/
theorem commitsSince_eq_log (env : GitEnv)
    (gc : List Char → Except Err Commit) (repoPath rev : List Char)
    (since : Int) (opt : CommitsSinceOptions) :
    commitsSince env gc repoPath rev since opt =
      log env gc repoPath rev
        { since := some since, path := opt.path, skip := 0, limit := 0,
          timeout := opt.timeout } := rfl

/-- C1: when the revision expression does not resolve, `CommitByRevision`
fails with `RevisionNotExist` and returns no commit; and whenever it
returns a commit, the commit's full identity rendered as a string starts
with the supplied revision text (so every valid abbreviated hash yields a
commit extending it). -/
theorem commitByRevision_spec (m : RepoModel) (rev : List Char) :
    (resolveRevision m rev = none →
      commitByRevision m rev = (none, some Err.revisionNotExist)) ∧
    (∀ c : Commit, commitByRevision m rev = (some c, none) →
      rev.isPrefixOf (Identity.toString c.id) = true) := by
  constructor
  · intro h
    simp [commitByRevision, h]
  · intro c hc
    cases hres : resolveRevision m rev with
    | none => simp [commitByRevision, hres] at hc
    | some id =>
      simp only [commitByRevision, hres] at hc
      cases hget : repoGetCommit m id with
      | error e => rw [hget] at hc; simp at hc
      | ok c0 =>
        rw [hget] at hc
        simp only [Prod.mk.injEq, Option.some.injEq] at hc
        obtain ⟨hc0, -⟩ := hc
        have hid0 : c0.id = id := by
          have hfind := hget
          unfold repoGetCommit at hfind
          cases hf : m.commits.find? (fun x => x.id == id) with
          | none => rw [hf] at hfind; simp at hfind
          | some c1 =>
            rw [hf] at hfind
            simp only [Except.ok.injEq] at hfind
            subst hfind
            have := List.find?_some hf
            exact eq_of_beq this
        have hid : c.id = id := by rw [← hc0]; exact hid0
        cases hl : m.commits.filter (fun x => rev.isPrefixOf x.id.hex) with
        | nil => simp [resolveRevision, hl] at hres
        | cons c1 tl =>
          cases tl with
          | cons c2 tl2 => simp [resolveRevision, hl] at hres
          | nil =>
            have hres1 : c1.id = id := by
              simp [resolveRevision, hl] at hres
              exact hres
            have hmem : c1 ∈ m.commits.filter (fun x => rev.isPrefixOf x.id.hex) := by
              rw [hl]; exact List.mem_singleton.mpr rfl
            have hpref := (List.mem_filter.mp hmem).2
            rw [Identity.toString, hid, ← hres1]
            exact hpref

/-- Witness for C1: in the one-commit model, the unresolvable fragment
`"404"` fails with `RevisionNotExist` and no commit, and the commit
returned for the abbreviated hash `"4e59b72"` extends that prefix. -/
theorem commitByRevision_spec_witness :
    commitByRevision demoRepo (cs "404") = (none, some Err.revisionNotExist) ∧
    (cs "4e59b72").isPrefixOf (Identity.toString demoCommit.id) = true :=
  ⟨(commitByRevision_spec demoRepo (cs "404")).1 (by decide),
    (commitByRevision_spec demoRepo (cs "4e59b72")).2 demoCommit (by decide)⟩

/-- C3 counterexample: the identity-list parser does not ignore a blank
trailing line.  With a commit lookup that fails on the empty identity (as
the real lookup does), the input `"aa\n"` — whose split has the blank
trailing part — parses differently from `"aa"`: the trailing blank is
passed to the lookup and the parse fails instead of ignoring it. -/
theorem parsePretty_trailing_blank_cex :
    parsePrettyFormatLogToList gcEmptyFails (cs "aa\n") ≠
      parsePrettyFormatLogToList gcEmptyFails (cs "aa") ∧
    parsePrettyFormatLogToList gcEmptyFails (cs "aa\n") =
      (none, some Err.revisionNotExist) := by
  constructor
  · decide
  · decide

/-- C3 (amended): the identity-list parser returns an empty sequence and
no error on empty input; on non-empty input it splits on newlines and
passes every part — including a blank trailing one, which is not skipped —
to the commit lookup in input order, short-circuiting to an error on the
first lookup failure and otherwise returning the commits in the order of
the input lines (no resorting). -/
theorem parsePretty_order_and_blank (gc : List Char → Except Err Commit)
    (logs : List Char) :
    parsePrettyFormatLogToList gc logs =
      if logs.isEmpty then (some [], none)
      else
        match mapAllOrErr gc (splitOnChar '\n' logs) with
        | .ok l => (some l, none)
        | .error e => (none, some e) :=
  parsePretty_spec gc logs

/-- C7: when the external invocation built by `DiffNameOnly` succeeds and —
as the path filter is applied by the external tool — every nonblank output
line is equal to or nested under the filter path, `DiffNameOnly` returns
the parsed lines with no error and every returned path is equal to or
nested under the filter; and when the tool's output is empty (the filter
matched no changed path), it returns the empty sequence and no error. -/
theorem diffNameOnly_filter (env : GitEnv) (repoPath base head : List Char)
    (opt : DiffNameOnlyOptions) (out : List Char) :
    env.run ⟨diffNameOnlyArgs base head opt, repoPath, opt.timeout⟩ = .ok out →
    ((∀ l ∈ splitOnChar '\n' out, l.isEmpty = true ∨ underPath opt.path l = true) →
      diffNameOnly env repoPath base head opt = (some (nameOnlyParse out), none) ∧
      ∀ f ∈ nameOnlyParse out, underPath opt.path f = true) ∧
    (out = [] → diffNameOnly env repoPath base head opt = (some [], none)) := by
  intro hrun
  constructor
  · intro hall
    constructor
    · simp [diffNameOnly, hrun]
    · intro f hf
      have hm := List.mem_filter.mp hf
      rcases hall f hm.1 with hblank | hunder
      · rw [hblank] at hm
        simp at hm
      · exact hunder
  · intro h0
    subst h0
    simp [diffNameOnly, hrun]
    rfl

/-- Witness for C7: a run whose output lines all sit under `"src"` yields
exactly those paths, and a run with empty output (the `"resources"` filter
matching nothing) yields the empty sequence without error. -/
theorem diffNameOnly_filter_witness :
    diffNameOnly (constOkEnv (cs "src/a.txt\nsrc/b/c.txt")) (cs "/repo")
        (cs "base") (cs "head") ⟨false, cs "src", 0⟩ =
      (some [cs "src/a.txt", cs "src/b/c.txt"], none) ∧
    diffNameOnly (constOkEnv []) (cs "/repo") (cs "base") (cs "head")
        ⟨false, cs "resources", 0⟩ = (some [], none) := by
  constructor
  · have h := ((diffNameOnly_filter (constOkEnv (cs "src/a.txt\nsrc/b/c.txt"))
      (cs "/repo") (cs "base") (cs "head") ⟨false, cs "src", 0⟩
      (cs "src/a.txt\nsrc/b/c.txt") rfl).1 (by decide)).1
    rw [h]
    decide
  · exact (diffNameOnly_filter (constOkEnv []) (cs "/repo") (cs "base")
      (cs "head") ⟨false, cs "resources", 0⟩ [] rfl).2 rfl

/-- C8 counterexample: an external failure whose text contains the bare
substring `"No such remote"` but neither `"error: No such remote"` nor
`"fatal: No such remote"` is NOT converted by `RepoRemoveRemote`: it is
propagated as the raw execution error, not as the remote-not-exist
error. -/
theorem removeRemote_bare_substring_cex :
    containsSub (cs "No such remote 'origin'") (cs "No such remote") = true ∧
    repoRemoveRemote (constErrEnv (cs "No such remote 'origin'"))
        (cs "/repo") (cs "origin") ⟨0⟩ =
      some (Err.exec (cs "No such remote 'origin'")) ∧
    some (Err.exec (cs "No such remote 'origin'")) ≠ some Err.remoteNotExist := by
  refine ⟨by decide, by decide, by decide⟩

/-- C8 (amended): on an external failure with text `t`, `RemoveRemote`
returns the remote-not-exist error exactly when `t` contains
`"error: No such remote"` or `"fatal: No such remote"`;
`RemoteURLSetFirst` returns it when `t` contains `"No such remote"`;
`RemoteURLSetRegex` returns `ErrURLNotExist` when `t` contains
`"No such URL found"` and otherwise the remote-not-exist error when `t`
contains `"No such remote"`; and a failure whose text contains none of
the recognized substrings is propagated unchanged by all three. -/
theorem remote_error_classification (t repoPath name newurl urlregex : List Char)
    (o1 : RemoveRemoteOptions) (o2 o3 : RemoteURLSetOptions) :
    ((containsSub t (cs "error: No such remote") = true ∨
        containsSub t (cs "fatal: No such remote") = true) →
      repoRemoveRemote (constErrEnv t) repoPath name o1 = some .remoteNotExist) ∧
    (containsSub t (cs "No such remote") = true →
      repoRemoteURLSetFirst (constErrEnv t) repoPath name newurl o2 =
        some .remoteNotExist) ∧
    (containsSub t (cs "No such URL found") = false →
      containsSub t (cs "No such remote") = true →
      repoRemoteURLSetRegex (constErrEnv t) repoPath name urlregex newurl o3 =
        some .remoteNotExist) ∧
    (containsSub t (cs "error: No such remote") = false →
      containsSub t (cs "fatal: No such remote") = false →
      containsSub t (cs "No such remote") = false →
      containsSub t (cs "No such URL found") = false →
      repoRemoveRemote (constErrEnv t) repoPath name o1 = some (.exec t) ∧
      repoRemoteURLSetFirst (constErrEnv t) repoPath name newurl o2 =
        some (.exec t) ∧
      repoRemoteURLSetRegex (constErrEnv t) repoPath name urlregex newurl o3 =
        some (.exec t)) := by
  refine ⟨?_, ?_, ?_, ?_⟩
  · rintro (h | h) <;> simp [repoRemoveRemote, constErrEnv, h]
  · intro h
    simp [repoRemoteURLSetFirst, constErrEnv, h]
  · intro hurl h
    simp [repoRemoteURLSetRegex, constErrEnv, hurl, h]
  · intro h1 h2 h3 h4
    refine ⟨?_, ?_, ?_⟩
    · simp [repoRemoveRemote, constErrEnv, h1, h2]
    · simp [repoRemoteURLSetFirst, constErrEnv, h3]
    · simp [repoRemoteURLSetRegex, constErrEnv, h3, h4]

/-- Witness for C8 (amended): concrete error texts exercising the
prefixed conversion of `RemoveRemote`, the bare-substring conversions of
the set-url operations, and the unchanged propagation of an unrecognized
text through all three operations. -/
theorem remote_error_classification_witness :
    repoRemoveRemote (constErrEnv (cs "fatal: No such remote 'origin'"))
        (cs "/repo") (cs "origin") ⟨0⟩ = some Err.remoteNotExist ∧
    repoRemoteURLSetFirst (constErrEnv (cs "No such remote 'origin'"))
        (cs "/repo") (cs "origin") (cs "u") ⟨false, 0⟩ = some Err.remoteNotExist ∧
    repoRemoteURLSetRegex (constErrEnv (cs "No such remote 'origin'"))
        (cs "/repo") (cs "origin") (cs "rx") (cs "u") ⟨false, 0⟩ =
      some Err.remoteNotExist ∧
    (repoRemoveRemote (constErrEnv (cs "some unrelated failure"))
        (cs "/repo") (cs "origin") ⟨0⟩ =
      some (Err.exec (cs "some unrelated failure")) ∧
    repoRemoteURLSetFirst (constErrEnv (cs "some unrelated failure"))
        (cs "/repo") (cs "origin") (cs "u") ⟨false, 0⟩ =
      some (Err.exec (cs "some unrelated failure")) ∧
    repoRemoteURLSetRegex (constErrEnv (cs "some unrelated failure"))
        (cs "/repo") (cs "origin") (cs "rx") (cs "u") ⟨false, 0⟩ =
      some (Err.exec (cs "some unrelated failure"))) :=
  ⟨(remote_error_classification (cs "fatal: No such remote 'origin'")
      (cs "/repo") (cs "origin") (cs "u") (cs "rx") ⟨0⟩ ⟨false, 0⟩ ⟨false, 0⟩).1
      (Or.inr (by decide)),
    (remote_error_classification (cs "No such remote 'origin'")
      (cs "/repo") (cs "origin") (cs "u") (cs "rx") ⟨0⟩ ⟨false, 0⟩ ⟨false, 0⟩).2.1
      (by decide),
    (remote_error_classification (cs "No such remote 'origin'")
      (cs "/repo") (cs "origin") (cs "u") (cs "rx") ⟨0⟩ ⟨false, 0⟩ ⟨false, 0⟩).2.2.1
      (by decide) (by decide),
    (remote_error_classification (cs "some unrelated failure")
      (cs "/repo") (cs "origin") (cs "u") (cs "rx") ⟨0⟩ ⟨false, 0⟩ ⟨false, 0⟩).2.2.2
      (by decide) (by decide) (by decide) (by decide)⟩

/-- C9: neither of the two public operations present in the source returns
a partial result beside an error: the identity-list parser and `LsRemote`
each return either a populated result and no error, or no result and
exactly one error. -/
theorem no_partial_results (gc : List Char → Except Err Commit)
    (logs : List Char) (env : GitEnv) (url : List Char)
    (opt : LsRemoteOptions) :
    ((∃ e, parsePrettyFormatLogToList gc logs = (none, some e)) ∨
      (∃ l, parsePrettyFormatLogToList gc logs = (some l, none))) ∧
    ((∃ e, lsRemote env url opt = (none, some e)) ∨
      (∃ refs, lsRemote env url opt = (some refs, none))) := by
  constructor
  · rw [parsePretty_spec]
    by_cases h : logs.isEmpty
    · right
      exact ⟨[], by simp [h]⟩
    · simp only [h, if_false, Bool.false_eq_true]
      cases mapAllOrErr gc (splitOnChar '\n' logs) with
      | error e => left; exact ⟨e, rfl⟩
      | ok l => right; exact ⟨l, rfl⟩
  · unfold lsRemote
    cases henv : env.run ⟨lsRemoteArgs url opt, [], opt.timeout⟩ with
    | error t => left; exact ⟨.exec t, rfl⟩
    | ok stdout => right; exact ⟨lsRemoteLoop (splitOnChar '\n' stdout) [], rfl⟩

/-- C10: on a successful invocation, `LsRemote` splits stdout on newlines
and returns, in input-line order, one `Reference` per line having at least
two whitespace-separated fields — its ID the first field and its refspec
the second — skipping every line with fewer than two fields (blank lines
included). -/
theorem lsRemote_parses_fields (env : GitEnv) (url : List Char)
    (opt : LsRemoteOptions) (out : List Char) :
    env.run ⟨lsRemoteArgs url opt, [], opt.timeout⟩ = .ok out →
    lsRemote env url opt =
      (some ((splitOnChar '\n' out).filterMap refOfLine), none) := by
  intro h
  simp [lsRemote, h, lsRemoteLoop_eq]

/-- Witness for C10: a four-line stdout with a three-field line, a blank
line, a one-field line and a two-field line yields exactly the references
of the first and last lines, in order. -/
theorem lsRemote_parses_fields_witness :
    lsRemote (constOkEnv (cs "abc def ghi\n\nxy\n123 refs/heads/main"))
        (cs "url") ⟨false, false, false, [], 0⟩ =
      (some [⟨cs "abc", cs "def"⟩, ⟨cs "123", cs "refs/heads/main"⟩], none) := by
  rw [lsRemote_parses_fields (constOkEnv (cs "abc def ghi\n\nxy\n123 refs/heads/main"))
    (cs "url") ⟨false, false, false, [], 0⟩
    (cs "abc def ghi\n\nxy\n123 refs/heads/main") rfl]
  decide

end GitShell
